import Mathlib

/-!
Mailing-list store (`mdb`): model and verified properties

A shallow embedding of `src/mdb/mdb.go`.  The package talks to one SQLite table

    emails(id INTEGER PRIMARY KEY, email TEXT UNIQUE, confirmed_at INTEGER, opt_out INTEGER)

through `database/sql`.  The table is modelled as the list of its rows, and every
SQL statement of the package as a function on that list that follows SQLite's
semantics for the statement.

Modelling conventions.
* Go `int` and `int64` are 64 bit wide; arithmetic on them wraps (`wrapInt64`).
* A row holds values as this package writes them: `email` is text, `confirmed_at`
  an integer, `opt_out` the integer 0 or 1 (kept as a `Bool`).  With such rows
  `row.Scan` in `emailEntryFromRow` cannot fail.
* Rowids are assigned as SQLite does below the largest rowid `2^63 - 1`:
  1 for an empty table, otherwise the largest rowid plus one.  Statements about
  a new row say of its id only that no stored row has it.
* Statements run on a healthy connection (no I/O fault), apart from `TryCreate`,
  whose control flow inspects the error and therefore takes a fault as input.
* A Go panic is an outcome of its own (`Outcome.panicked`).
-/

namespace Mdb

/-! ## Go values -/

/-- Instant of Go's `time.Time`, as seconds and nanoseconds since the Unix epoch. -/
structure Time where
  sec : Int
  nsec : Nat
deriving DecidableEq, Repr

/-- Go `time.Unix(sec, 0)`. -/
def timeUnix (sec : Int) : Time := ⟨sec, 0⟩

/-- Go `(t Time).Unix()`: the seconds since the epoch. -/
def Time.Unix (t : Time) : Int := t.sec

/-- Struct `EmailEntry` of `mdb.go`; the pointer `ConfirmedAt` may be nil (`none`). -/
structure EmailEntry where
  Id : Int
  Email : String
  ConfirmedAt : Option Time
  OptOut : Bool
deriving DecidableEq, Repr

/-- A Go `error` value as far as the package distinguishes them: an
`sqlite3.Error` with its primary result code, or any other error. -/
inductive GoError where
  | sqlite (code : Nat)
  | other
deriving DecidableEq, Repr

/-- SQLite result code `SQLITE_ERROR` (also: malformed SQL, table already exists). -/
def SQLITE_ERROR : Nat := 1

/-- SQLite result code `SQLITE_CONSTRAINT`. -/
def SQLITE_CONSTRAINT : Nat := 19

/-- How a call of a Go function ends: it returns a value with a nil error,
returns a non-nil error, or does not return because the goroutine panics. -/
inductive Outcome (α : Type) where
  | ok (v : α)
  | error (e : GoError)
  | panicked
deriving DecidableEq, Repr

/-- Wrap an integer into the range of a signed 64-bit machine integer. -/
def wrapInt64 (x : Int) : Int := (x + 2 ^ 63) % 2 ^ 64 - 2 ^ 63

/-- Values a Go `int` can hold. -/
def isInt64 (x : Int) : Prop := -(2 ^ 63) ≤ x ∧ x < 2 ^ 63

instance (x : Int) : Decidable (isInt64 x) := by unfold isInt64; infer_instance

/-! ## The table -/

/-- One row of table `emails`. -/
structure Row where
  id : Int
  email : String
  confirmed_at : Int
  opt_out : Bool
deriving DecidableEq, Repr

/-- Contents of table `emails`, in insertion order. -/
abbrev Table := List Row

/-- Constraints of the schema: `email` is `UNIQUE`, `id` is the primary key. -/
def WF (t : Table) : Prop :=
  (t.map (fun r => r.email)).Nodup ∧ (t.map (fun r => r.id)).Nodup

instance (t : Table) : Decidable (WF t) := by unfold WF; infer_instance

/-- Rowid SQLite gives to a row inserted without an explicit `id`: 1 for an
empty table, otherwise the largest rowid plus one.  This is SQLite's rule while
the largest rowid is below `2^63 - 1`; at that largest rowid SQLite draws an
unused rowid at random instead, which the function does not reproduce.  What
the two have in common, and all that the statements below rely on, is that the
rowid is one no stored row has (`lt_nextRowid`). -/
def nextRowid : Table → Int
  | [] => 1
  | r :: rs => rs.foldl (fun m x => max m x.id) r.id + 1

/-- Whether some row carries the address. -/
def hasEmail (t : Table) (email : String) : Bool :=
  t.any (fun r => r.email == email)

/-! ## Table creation -/

/-- Database file: the table is absent (`none`) or present with its rows. -/
abbrev DB := Option Table

/-- Statement `CREATE TABLE emails (...)` run through `db.Exec`.  A fault of the
engine or driver makes the call return that error.  Otherwise the statement
fails with result code 1 when the table exists and creates it empty when not. -/
def execCreateTable (fault : Option GoError) (db : DB) : DB × Option GoError :=
  match fault with
  | some e => (db, some e)
  | none =>
    match db with
    | some t => (some t, some (.sqlite SQLITE_ERROR))
    | none => (some [], none)

/-- How `TryCreate` ends: it returns, or `log.Fatal` exits the process. -/
inductive Exit where
  | returned
  | fatal
deriving DecidableEq, Repr

/-- Function `TryCreate` of `mdb.go`.  The `else` belongs to `if err != nil`,
so `log.Fatal(err)` runs when `err` is nil. -/
def TryCreate (fault : Option GoError) (db : DB) : DB × Exit :=
  let res := execCreateTable fault db
  match res.2 with
  | some err =>
    match err with
    | .sqlite code => if code ≠ 1 then (res.1, .fatal) else (res.1, .returned)
    | .other => (res.1, .returned)
  | none => (res.1, .fatal)

/-! ## Row operations -/

/-- Function `emailEntryFromRow` of `mdb.go`: scan the four columns and build
the entry, the timestamp through `time.Unix(confirmedAt, 0)`. -/
def emailEntryFromRow (row : Row) : Except GoError EmailEntry :=
  .ok ⟨row.id, row.email, some (timeUnix row.confirmed_at), row.opt_out⟩

/-- Function `CreateEmail` of `mdb.go`:
`INSERT INTO emails(email, confirmed_at, opt_out) VALUES(?, 0, false)`.
The `UNIQUE` constraint rejects an address that is already stored. -/
def CreateEmail (t : Table) (email : String) : Table × Outcome Unit :=
  if hasEmail t email then (t, .error (.sqlite SQLITE_CONSTRAINT))
  else (t ++ [⟨nextRowid t, email, 0, false⟩], .ok ())

/-- Function `GetEmail` of `mdb.go`:
`SELECT id, email, confirmed_at, opt_out FROM emails WHERE email = ?`;
the loop returns at the first row, and `(nil, nil)` follows an empty result. -/
def GetEmail (t : Table) (email : String) : Table × Outcome (Option EmailEntry) :=
  match t.filter (fun r => r.email == email) with
  | row :: _ =>
    match emailEntryFromRow row with
    | .ok e => (t, .ok (some e))
    | .error err => (t, .error err)
  | [] => (t, .ok none)

/-- Function `DeleteEmail` of `mdb.go`:
`UPDATE emails SET opt_out=true WHERE email=?`. -/
def DeleteEmail (t : Table) (email : String) : Table × Outcome Unit :=
  (t.map (fun r => if r.email == email then { r with opt_out := true } else r), .ok ())

/-! ## The upsert statement of `UpdateEmail` -/

/-- Tokens of the `SET` list of an `UPDATE`/upsert clause. -/
inductive SetTok where
  | name (column : String)
  | eq
  | param
  | comma
deriving DecidableEq, Repr

/-- SQLite's grammar of a `SET` list whose right-hand sides are bound
parameters: `name = ?` items separated by commas.  Returns the assigned
columns in order, or `none` when the tokens are not in the grammar. -/
def parseSetList : List SetTok → Option (List String)
  | [.name c, .eq, .param] => some [c]
  | .name c :: .eq :: .param :: .comma :: rest =>
    match parseSetList rest with
    | some cs => some (c :: cs)
    | none => none
  | _ => none

/-- The `SET` list as written in `UpdateEmail`:
`confirmed_at=?` and `opt_out=?` on consecutive lines, with no comma between. -/
def updateEmailSetList : List SetTok :=
  [.name "confirmed_at", .eq, .param, .name "opt_out", .eq, .param]

/-- Value bound to a statement parameter. -/
inductive SqlValue where
  | int (i : Int)
  | bool (b : Bool)
deriving DecidableEq, Repr

/-- Assign one column of a row: an integer to `confirmed_at`, a boolean to
`opt_out`, the only assignments the statements of this package make. -/
def setColumn (r : Row) (column : String) (v : SqlValue) : Row :=
  match v with
  | .int i => if column = "confirmed_at" then { r with confirmed_at := i } else r
  | .bool b => if column = "opt_out" then { r with opt_out := b } else r

/-- Assign the columns of a `SET` list from the parameters bound to it, in order. -/
def applySetList (columns : List String) (args : List SqlValue) (r : Row) : Row :=
  (columns.zip args).foldl (fun acc ca => setColumn acc ca.1 ca.2) r

/-- Function `UpdateEmail` of `mdb.go`.  First `entry.ConfirmedAt.Unix()`
dereferences the pointer.  Then `db.Exec` prepares

    INSERT INTO emails(email, confirmed_at, opt_out) VALUES(?, ?, ?)
    ON CONFLICT(email) DO UPDATE SET <updateEmailSetList>

which SQLite rejects with result code 1 when the `SET` list is malformed;
otherwise the row is inserted, or on a conflict the listed columns of the
stored row are overwritten with the fourth and fifth argument. -/
def UpdateEmail (t : Table) (entry : EmailEntry) : Table × Outcome Unit :=
  match entry.ConfirmedAt with
  | none => (t, .panicked)
  | some confirmedAt =>
    let ts := confirmedAt.Unix
    match parseSetList updateEmailSetList with
    | none => (t, .error (.sqlite SQLITE_ERROR))
    | some columns =>
      if hasEmail t entry.Email then
        (t.map (fun r =>
            if r.email == entry.Email
            then applySetList columns [.int ts, .bool entry.OptOut] r else r), .ok ())
      else (t ++ [⟨nextRowid t, entry.Email, ts, entry.OptOut⟩], .ok ())

/-! ## Batches -/

/-- Struct `GetEmailBatchQueryParams` of `mdb.go`. -/
structure GetEmailBatchQueryParams where
  Page : Int
  Count : Int
deriving DecidableEq, Repr

/-- SQLite `OFFSET n`: a negative offset counts as zero. -/
def sqlOffset {α : Type} (offset : Int) (l : List α) : List α :=
  if offset < 0 then l else l.drop offset.toNat

/-- SQLite `LIMIT n`: a negative limit means no limit. -/
def sqlLimit {α : Type} (limit : Int) (l : List α) : List α :=
  if limit < 0 then l else l.take limit.toNat

/-- The rows with `opt_out = false` in ascending order of `id`. -/
def activeById (t : Table) : List Row :=
  (t.filter (fun r => r.opt_out == false)).insertionSort (fun a b => a.id ≤ b.id)

/-- Query of `GetEmailBatch`:
`SELECT ... FROM emails WHERE opt_out = false ORDER BY id ASC LIMIT ? OFFSET ?`. -/
def selectBatch (t : Table) (limit offset : Int) : List Row :=
  sqlLimit limit (sqlOffset offset (activeById t))

/-- The loop of `GetEmailBatch` over the result rows: convert each row and
append it, stopping at the first conversion error. -/
def collectEntries : List Row → List EmailEntry → Except GoError (List EmailEntry)
  | [], emails => .ok emails
  | row :: rest, emails =>
    match emailEntryFromRow row with
    | .ok email => collectEntries rest (emails ++ [email])
    | .error err => .error err

/-- Function `GetEmailBatch` of `mdb.go`.  The offset `(params.Page-1)*params.Count`
is computed in Go `int` arithmetic.  After the query,
`make([]EmailEntry, 0, params.Count)` panics when the capacity is negative or
beyond `capLimit`, the largest capacity the Go runtime grants for this element
type in the running process. -/
def GetEmailBatch (capLimit : Nat) (t : Table) (params : GetEmailBatchQueryParams) :
    Outcome (List EmailEntry) :=
  let rows := selectBatch t params.Count (wrapInt64 (wrapInt64 (params.Page - 1) * params.Count))
  if params.Count < 0 ∨ (capLimit : Int) < params.Count then .panicked
  else
    match collectEntries rows [] with
    | .ok emails => .ok emails
    | .error err => .error err

/-! ## Specification-side definitions -/

/-- The batch in the words of the specification: the rows with `opt_out = false`,
sorted by ascending `id`, without the first `(page-1)*count` of them, and at most
`count` of the rest. -/
def specBatch (t : Table) (page count : Int) : List Row :=
  (((t.filter (fun r => r.opt_out == false)).insertionSort
      (fun a b => a.id ≤ b.id)).drop ((page - 1) * count).toNat).take count.toNat

/-- The entry a fetch reports for a stored row. -/
def entryOfRow (r : Row) : EmailEntry :=
  ⟨r.id, r.email, some (timeUnix r.confirmed_at), r.opt_out⟩

/-- Mutating calls of the store. -/
inductive Op where
  | create (email : String)
  | update (entry : EmailEntry)
  | delete (email : String)
deriving DecidableEq, Repr

/-- Table after one call, whatever its outcome. -/
def step (t : Table) : Op → Table
  | .create email => (CreateEmail t email).1
  | .update entry => (UpdateEmail t entry).1
  | .delete email => (DeleteEmail t email).1

/-- Table after a sequence of calls on the empty table. -/
def run (ops : List Op) : Table := ops.foldl step []

/-- The table of the specification's example: five addresses created in order. -/
def fiveRows : Table :=
  run [.create "a@x", .create "b@x", .create "c@x", .create "d@x", .create "e@x"]

/-- Upper bound on the capacity that `runtime.makeslice` accepts for
`[]EmailEntry` on a 64-bit target with 48-bit heap addresses: the allocation
limit `2^48` bytes divided by the 40 bytes of one `EmailEntry`.  The capacity a
running process is really granted is at most this. -/
def goMaxSliceCap : Nat := 2 ^ 48 / 40

/-! ## Auxiliary facts -/

theorem hasEmail_eq_true_iff (t : Table) (email : String) :
    hasEmail t email = true ↔ ∃ r ∈ t, r.email = email := by
  simp [hasEmail, List.any_eq_true]

theorem hasEmail_eq_false_iff (t : Table) (email : String) :
    hasEmail t email = false ↔ ∀ r ∈ t, r.email ≠ email := by
  rw [← Bool.not_eq_true, hasEmail_eq_true_iff]
  simp

theorem foldl_max_ge (rs : List Row) (m : Int) :
    m ≤ rs.foldl (fun m x => max m x.id) m ∧
      ∀ r ∈ rs, r.id ≤ rs.foldl (fun m x => max m x.id) m := by
  induction rs generalizing m with
  | nil => simp
  | cons a rs ih =>
    simp only [List.foldl_cons, List.mem_cons]
    have h1 := (ih (max m a.id)).1
    have h2 := (ih (max m a.id)).2
    refine ⟨le_trans (le_max_left _ _) h1, ?_⟩
    intro r hr
    rcases hr with rfl | hr
    · exact le_trans (le_max_right _ _) h1
    · exact h2 r hr

theorem lt_nextRowid (t : Table) : ∀ r ∈ t, r.id < nextRowid t := by
  cases t with
  | nil => simp
  | cons a rs =>
    intro r hr
    have h := foldl_max_ge rs a.id
    simp only [nextRowid]
    rcases List.mem_cons.mp hr with rfl | hr
    · have := h.1
      omega
    · have := h.2 r hr
      omega

theorem filter_email_eq_nil (t : Table) (email : String)
    (h : ∀ r ∈ t, r.email ≠ email) : t.filter (fun r => r.email == email) = [] := by
  rw [List.filter_eq_nil_iff]
  intro r hr
  simpa using h r hr

theorem filter_email_eq_singleton (t : Table) (r : Row)
    (hn : (t.map (fun r => r.email)).Nodup) (hr : r ∈ t) :
    t.filter (fun x => x.email == r.email) = [r] := by
  induction t with
  | nil => simp at hr
  | cons a rest ih =>
    simp only [List.map_cons, List.nodup_cons, List.mem_map, not_exists, not_and] at hn
    rcases List.mem_cons.mp hr with rfl | hr
    · have hrest : rest.filter (fun x => x.email == r.email) = [] := by
        apply filter_email_eq_nil
        intro x hx
        exact hn.1 x hx
      simp [List.filter_cons, hrest]
    · have hne : a.email ≠ r.email := fun h => hn.1 r hr h.symm
      simp [List.filter_cons, hne, ih hn.2 hr]

theorem WF_CreateEmail (t : Table) (email : String) (h : WF t) : WF (CreateEmail t email).1 := by
  unfold CreateEmail
  cases hq : hasEmail t email with
  | true => simpa using h
  | false =>
    have hno := (hasEmail_eq_false_iff t email).mp hq
    simp only [Bool.false_eq_true, if_false, WF, List.map_append, List.map_cons, List.map_nil]
    refine ⟨?_, ?_⟩
    · refine List.Nodup.append h.1 (List.nodup_singleton _) ?_
      simp only [List.disjoint_singleton, List.mem_map, not_exists, not_and]
      exact fun x hx => hno x hx
    · refine List.Nodup.append h.2 (List.nodup_singleton _) ?_
      simp only [List.disjoint_singleton, List.mem_map, not_exists, not_and]
      intro x hx hxe
      have := lt_nextRowid t x hx
      omega

theorem UpdateEmail_table (t : Table) (entry : EmailEntry) : (UpdateEmail t entry).1 = t := by
  unfold UpdateEmail
  cases entry.ConfirmedAt with
  | none => rfl
  | some c => rfl

theorem map_email_DeleteEmail (t : Table) (email : String) :
    (DeleteEmail t email).1.map (fun r => r.email) = t.map (fun r => r.email) := by
  simp only [DeleteEmail, List.map_map]
  apply List.map_congr_left
  intro r _
  by_cases h : r.email = email <;> simp [h]

theorem map_id_DeleteEmail (t : Table) (email : String) :
    (DeleteEmail t email).1.map (fun r => r.id) = t.map (fun r => r.id) := by
  simp only [DeleteEmail, List.map_map]
  apply List.map_congr_left
  intro r _
  by_cases h : r.email = email <;> simp [h]

theorem WF_DeleteEmail (t : Table) (email : String) (h : WF t) : WF (DeleteEmail t email).1 := by
  unfold WF
  rw [map_email_DeleteEmail, map_id_DeleteEmail]
  exact h

theorem WF_step (t : Table) (op : Op) (h : WF t) : WF (step t op) := by
  cases op with
  | create email => exact WF_CreateEmail t email h
  | update entry => simpa [step, UpdateEmail_table] using h
  | delete email => exact WF_DeleteEmail t email h

theorem run_snoc (ops : List Op) (op : Op) : run (ops ++ [op]) = step (run ops) op := by
  simp [run, List.foldl_append]

theorem WF_run (ops : List Op) : WF (run ops) := by
  induction ops using List.reverseRecOn with
  | nil => simp [run, WF]
  | append_singleton ops op ih =>
    rw [run_snoc]
    exact WF_step _ op ih

theorem GetEmail_of_mem (t : Table) (r : Row)
    (hn : (t.map (fun r => r.email)).Nodup) (hr : r ∈ t) :
    GetEmail t r.email = (t, .ok (some (entryOfRow r))) := by
  simp [GetEmail, filter_email_eq_singleton t r hn hr, emailEntryFromRow, entryOfRow]

theorem eq_of_email_eq (t : Table) (hn : (t.map (fun r => r.email)).Nodup) (x y : Row)
    (hx : x ∈ t) (hy : y ∈ t) (h : x.email = y.email) : x = y :=
  List.inj_on_of_nodup_map hn hx hy h

theorem collectEntries_eq (rows : List Row) (acc : List EmailEntry) :
    collectEntries rows acc = .ok (acc ++ rows.map entryOfRow) := by
  induction rows generalizing acc with
  | nil => simp [collectEntries]
  | cons r rest ih =>
    simp [collectEntries, emailEntryFromRow, ih, entryOfRow]

theorem GetEmailBatch_eq (capLimit : Nat) (t : Table) (params : GetEmailBatchQueryParams) :
    GetEmailBatch capLimit t params =
      if params.Count < 0 ∨ (capLimit : Int) < params.Count then .panicked
      else .ok ((selectBatch t params.Count
        (wrapInt64 (wrapInt64 (params.Page - 1) * params.Count))).map entryOfRow) := by
  simp [GetEmailBatch, collectEntries_eq]

theorem mem_activeById (t : Table) (r : Row) :
    r ∈ activeById t ↔ r ∈ t ∧ r.opt_out = false := by
  unfold activeById
  rw [(List.perm_insertionSort _ _).mem_iff]
  simp [List.mem_filter]

theorem selectBatch_sublist (t : Table) (limit offset : Int) :
    (selectBatch t limit offset).Sublist (activeById t) := by
  unfold selectBatch sqlLimit sqlOffset
  split <;> split
  · exact List.Sublist.refl _
  · exact List.drop_sublist _ _
  · exact List.take_sublist _ _
  · exact (List.take_sublist _ _).trans (List.drop_sublist _ _)

theorem GetEmailBatch_mem (capLimit : Nat) (t : Table) (params : GetEmailBatchQueryParams)
    (es : List EmailEntry) (h : GetEmailBatch capLimit t params = .ok es) :
    ∀ e ∈ es, ∃ r ∈ t, r.opt_out = false ∧ e = entryOfRow r := by
  rw [GetEmailBatch_eq] at h
  split at h
  · simp at h
  · simp only [Outcome.ok.injEq] at h
    subst h
    intro e he
    obtain ⟨r, hr, rfl⟩ := List.mem_map.mp he
    have hr2 := (mem_activeById t r).mp ((selectBatch_sublist t _ _).subset hr)
    exact ⟨r, hr2.1, hr2.2, rfl⟩

theorem step_keeps_row (t : Table) (op : Op) (r : Row) (hr : r ∈ t) :
    ∃ q ∈ step t op, q.id = r.id ∧ q.email = r.email := by
  cases op with
  | create email =>
    refine ⟨r, ?_, rfl, rfl⟩
    simp only [step, CreateEmail]
    split
    · exact hr
    · exact List.mem_append_left _ hr
  | update entry =>
    refine ⟨r, ?_, rfl, rfl⟩
    simpa [step, UpdateEmail_table] using hr
  | delete email =>
    refine ⟨if r.email == email then { r with opt_out := true } else r, ?_, ?_, ?_⟩
    · simp only [step, DeleteEmail]
      exact List.mem_map.mpr ⟨r, hr, rfl⟩
    · split <;> rfl
    · split <;> rfl

theorem wrapInt64_of_isInt64 (x : Int) (h : isInt64 x) : wrapInt64 x = x := by
  unfold isInt64 at h
  unfold wrapInt64
  omega

theorem sorted_ids_activeById (t : Table) :
    ((activeById t).map (fun r => r.id)).Sorted (· ≤ ·) := by
  haveI : IsTotal Row (fun a b => a.id ≤ b.id) := ⟨fun a b => le_total a.id b.id⟩
  haveI : IsTrans Row (fun a b => a.id ≤ b.id) := ⟨fun _ _ _ h1 h2 => le_trans h1 h2⟩
  have h := List.sorted_insertionSort (fun a b : Row => a.id ≤ b.id)
    (t.filter (fun r => r.opt_out == false))
  unfold List.Sorted
  rw [List.pairwise_map]
  exact h

theorem nodup_ids_activeById (t : Table) (hwf : WF t) :
    ((activeById t).map (fun r => r.id)).Nodup := by
  have hperm : ((activeById t).map (fun r => r.id)).Perm
      ((t.filter (fun r => r.opt_out == false)).map (fun r => r.id)) :=
    (List.perm_insertionSort _ _).map _
  rw [hperm.nodup_iff]
  exact hwf.2.sublist ((List.filter_sublist _).map _)

theorem strict_ids_of_sublist (t : Table) (hwf : WF t) (l : List Row)
    (hl : l.Sublist (activeById t)) :
    ((l.map entryOfRow).map (fun e => e.Id)).Sorted (· < ·) := by
  have hmap : (l.map entryOfRow).map (fun e => e.Id) = l.map (fun r => r.id) := by
    simp [List.map_map, Function.comp_def, entryOfRow]
  rw [hmap]
  have hs : ((activeById t).map (fun r => r.id)).Sorted (· < ·) :=
    (sorted_ids_activeById t).lt_of_le (nodup_ids_activeById t hwf)
  exact hs.sublist (hl.map _)

theorem selectBatch_eq_specBatch (t : Table) (page count : Int)
    (hp : 1 ≤ page) (hpi : page < 2 ^ 63) (hc : 0 ≤ count)
    (hoff : (page - 1) * count < 2 ^ 63) :
    selectBatch t count (wrapInt64 (wrapInt64 (page - 1) * count)) = specBatch t page count := by
  have h1 : wrapInt64 (page - 1) = page - 1 :=
    wrapInt64_of_isInt64 _ ⟨by omega, by omega⟩
  have hnn : 0 ≤ (page - 1) * count := mul_nonneg (by omega) hc
  have h2 : wrapInt64 ((page - 1) * count) = (page - 1) * count :=
    wrapInt64_of_isInt64 _ ⟨by omega, hoff⟩
  rw [h1, h2]
  unfold selectBatch specBatch sqlLimit sqlOffset activeById
  rw [if_neg (by omega), if_neg (by omega)]

theorem specBatch_sublist (t : Table) (page count : Int) :
    (specBatch t page count).Sublist (activeById t) := by
  unfold specBatch activeById
  exact (List.take_sublist _ _).trans (List.drop_sublist _ _)

/-! ## Table creation (C9) -/

/-- C9 (the code departs from the claim): on a database without the table and
with no fault, `CREATE TABLE` succeeds, `err` is nil, and `TryCreate` reaches
`log.Fatal(err)`: the table is created and the process exits.  The other cases
are as the claim says: an existing table (result code 1) lets it return, an
sqlite error with another code is fatal.  An error that is not an
`sqlite3.Error` lets it return as well. -/
theorem TryCreate_fatal_on_success :
    TryCreate none none = (some [], Exit.fatal) ∧
    (∀ t : Table, TryCreate none (some t) = (some t, Exit.returned)) ∧
    (∀ (db : DB) (code : Nat), code ≠ 1 →
      TryCreate (some (.sqlite code)) db = (db, Exit.fatal)) ∧
    (∀ db : DB, TryCreate (some .other) db = (db, Exit.returned)) := by
  refine ⟨rfl, fun _ => rfl, ?_, fun _ => rfl⟩
  intro db code hcode
  simp [TryCreate, execCreateTable, hcode]

/-! ## Update (C5, C10) -/

/-- C5 (the code departs from the claim): for every table and every entry
with a non-nil `ConfirmedAt`, `UpdateEmail` returns the sqlite error of a
malformed statement (result code 1) and leaves the table as it was: nothing is
inserted and nothing is overwritten. -/
theorem UpdateEmail_always_fails (t : Table) (id : Int) (email : String)
    (confirmedAt : Time) (optOut : Bool) :
    UpdateEmail t ⟨id, email, some confirmedAt, optOut⟩ = (t, .error (.sqlite SQLITE_ERROR)) ∧
    (UpdateEmail [] ⟨0, "a@x", some (timeUnix 10000), true⟩).1 = [] ∧
    (GetEmail (UpdateEmail [] ⟨0, "a@x", some (timeUnix 10000), true⟩).1 "a@x").2 = .ok none := by
  refine ⟨rfl, rfl, rfl⟩

/-- C10 (the code departs from the claim): for an entry whose `ConfirmedAt`
is nil, `UpdateEmail` panics at `entry.ConfirmedAt.Unix()` before any statement
runs; it returns neither nil nor an error. -/
theorem UpdateEmail_nil_ConfirmedAt_panics (t : Table) (id : Int) (email : String)
    (optOut : Bool) :
    UpdateEmail t ⟨id, email, none, optOut⟩ = (t, .panicked) := rfl

/-! ## Create (C4, C6) -/

/-- C4: when a row already holds the address, `CreateEmail` returns a non-nil
error, the sqlite constraint violation, and the table is exactly the table
before the call. -/
theorem CreateEmail_existing (t : Table) (email : String) (r : Row)
    (hr : r ∈ t) (he : r.email = email) :
    CreateEmail t email = (t, .error (.sqlite SQLITE_CONSTRAINT)) ∧
    (CreateEmail t email).2 ≠ .ok () ∧
    r ∈ (CreateEmail t email).1 ∧
    (CreateEmail t email).1.length = t.length := by
  have h : hasEmail t email = true := (hasEmail_eq_true_iff t email).mpr ⟨r, hr, he⟩
  have h1 : CreateEmail t email = (t, .error (.sqlite SQLITE_CONSTRAINT)) := by
    simp [CreateEmail, h]
  rw [h1]
  exact ⟨rfl, by simp, hr, rfl⟩

theorem CreateEmail_existing_witness :
    CreateEmail fiveRows "b@x" = (fiveRows, .error (.sqlite SQLITE_CONSTRAINT)) :=
  (CreateEmail_existing fiveRows "b@x" ⟨2, "b@x", 0, false⟩ (by decide) rfl).1

/-- C6: when no row holds the address, `CreateEmail` returns no error and
appends exactly one row: that address under an id that no stored row has, with
`confirmed_at = 0` and `opt_out = false`.  The rows stored before are kept as
they were, and `GetEmail` on the new table returns a non-nil entry with that
id and address, `OptOut = false` and `ConfirmedAt` at epoch second 0. -/
theorem CreateEmail_new (t : Table) (email : String) (h : ∀ r ∈ t, r.email ≠ email) :
    ∃ id : Int,
      (∀ r ∈ t, r.id ≠ id) ∧
      (CreateEmail t email).2 = .ok () ∧
      (CreateEmail t email).1 = t ++ [⟨id, email, 0, false⟩] ∧
      (CreateEmail t email).1.length = t.length + 1 ∧
      (GetEmail (CreateEmail t email).1 email).2 =
        .ok (some ⟨id, email, some (timeUnix 0), false⟩) ∧
      (timeUnix 0).Unix = 0 := by
  have hq : hasEmail t email = false := (hasEmail_eq_false_iff t email).mpr h
  have h1 : CreateEmail t email = (t ++ [⟨nextRowid t, email, 0, false⟩], .ok ()) := by
    simp [CreateEmail, hq]
  refine ⟨nextRowid t, ?_, ?_⟩
  · intro r hr hid
    have := lt_nextRowid t r hr
    omega
  · rw [h1]
    refine ⟨rfl, rfl, by simp, ?_, rfl⟩
    simp [GetEmail, List.filter_append, filter_email_eq_nil t email h, emailEntryFromRow]

theorem CreateEmail_new_witness :
    ∃ id : Int,
      (∀ r ∈ fiveRows, r.id ≠ id) ∧
      (CreateEmail fiveRows "f@x").2 = .ok () ∧
      (CreateEmail fiveRows "f@x").1 = fiveRows ++ [⟨id, "f@x", 0, false⟩] ∧
      (CreateEmail fiveRows "f@x").1.length = fiveRows.length + 1 ∧
      (GetEmail (CreateEmail fiveRows "f@x").1 "f@x").2 =
        .ok (some ⟨id, "f@x", some (timeUnix 0), false⟩) ∧
      (timeUnix 0).Unix = 0 :=
  CreateEmail_new fiveRows "f@x" (by decide)

/-! ## Fetch (C7) -/

/-- C7: `GetEmail` returns `(nil, nil)` exactly when no row holds the address;
when a row holds it, the result is that row (id, email, `confirmed_at` as a
timestamp, `opt_out`) with a nil error.  It never returns an error, never
panics, and the table is the same afterwards. -/
theorem GetEmail_spec (t : Table) (email : String) (hwf : WF t) :
    ((GetEmail t email).2 = .ok none ↔ ∀ r ∈ t, r.email ≠ email) ∧
    (∀ r ∈ t, r.email = email →
      (GetEmail t email).2 =
        .ok (some ⟨r.id, r.email, some (timeUnix r.confirmed_at), r.opt_out⟩)) ∧
    (∀ err, (GetEmail t email).2 ≠ .error err) ∧
    (GetEmail t email).2 ≠ .panicked ∧
    (GetEmail t email).1 = t := by
  have hfound : ∀ r ∈ t, r.email = email →
      (GetEmail t email).2 =
        .ok (some ⟨r.id, r.email, some (timeUnix r.confirmed_at), r.opt_out⟩) := by
    intro r hr he
    subst he
    simp [GetEmail, filter_email_eq_singleton t r hwf.1 hr, emailEntryFromRow]
  by_cases hex : ∃ r ∈ t, r.email = email
  · obtain ⟨r, hr, he⟩ := hex
    have hres := hfound r hr he
    refine ⟨?_, hfound, ?_, ?_, ?_⟩
    · rw [hres]
      constructor
      · intro h
        simp at h
      · intro h
        exact absurd he (h r hr)
    · intro err
      rw [hres]
      simp
    · rw [hres]
      simp
    · subst he
      simp [GetEmail, filter_email_eq_singleton t r hwf.1 hr, emailEntryFromRow]
  · have hno : ∀ r ∈ t, r.email ≠ email := fun r hr he => hex ⟨r, hr, he⟩
    have hres : GetEmail t email = (t, .ok none) := by
      simp [GetEmail, filter_email_eq_nil t email hno]
    refine ⟨?_, hfound, ?_, ?_, ?_⟩
    · rw [hres]
      exact ⟨fun _ => hno, fun _ => rfl⟩
    · intro err
      rw [hres]
      simp
    · rw [hres]
      simp
    · rw [hres]

theorem GetEmail_spec_witness :
    WF fiveRows ∧
    (GetEmail fiveRows "c@x").2 = .ok (some ⟨3, "c@x", some (timeUnix 0), false⟩) ∧
    ((GetEmail fiveRows "z@x").2 = .ok none ↔ ∀ r ∈ fiveRows, r.email ≠ "z@x") :=
  ⟨by decide,
   (GetEmail_spec fiveRows "c@x" (by decide)).2.1 ⟨3, "c@x", 0, false⟩ (by decide) rfl,
   (GetEmail_spec fiveRows "z@x" (by decide)).1⟩

/-! ## Delete (C3) -/

/-- C3: `DeleteEmail` returns no error and removes no row.  When a row holds
the address, the new table is the old one with only that row changed, and only
in `opt_out`, which is now true; `GetEmail` returns that row with the same id,
email and `confirmed_at` and with `OptOut = true`; and no batch that
`GetEmailBatch` returns afterwards contains the address.  When no row holds the
address the table is unchanged. -/
theorem DeleteEmail_spec (t : Table) (email : String) (hwf : WF t) :
    (DeleteEmail t email).2 = .ok () ∧
    (DeleteEmail t email).1.length = t.length ∧
    (∀ r ∈ t, r.email = email →
      (DeleteEmail t email).1 =
          t.map (fun x => if x = r then { x with opt_out := true } else x) ∧
      (GetEmail (DeleteEmail t email).1 email).2 =
          .ok (some ⟨r.id, r.email, some (timeUnix r.confirmed_at), true⟩)) ∧
    (∀ (capLimit : Nat) (params : GetEmailBatchQueryParams) (es : List EmailEntry),
      GetEmailBatch capLimit (DeleteEmail t email).1 params = .ok es →
        ∀ e ∈ es, e.Email ≠ email) ∧
    ((∀ r ∈ t, r.email ≠ email) → DeleteEmail t email = (t, .ok ())) := by
  refine ⟨rfl, by simp [DeleteEmail], ?_, ?_, ?_⟩
  · intro r hr he
    subst he
    constructor
    · simp only [DeleteEmail]
      apply List.map_congr_left
      intro x hx
      by_cases hxr : x = r
      · simp [hxr]
      · have hne : x.email ≠ r.email := fun h => hxr (eq_of_email_eq t hwf.1 x r hx hr h)
        simp [hxr, hne]
    · have hmem : ({ r with opt_out := true } : Row) ∈ (DeleteEmail t r.email).1 := by
        simp only [DeleteEmail]
        exact List.mem_map.mpr ⟨r, hr, by simp⟩
      have hn : ((DeleteEmail t r.email).1.map (fun r => r.email)).Nodup := by
        rw [map_email_DeleteEmail]
        exact hwf.1
      have := GetEmail_of_mem _ _ hn hmem
      simp only at this
      rw [this]
      rfl
  · intro capLimit params es hes e he hemail
    obtain ⟨q, hq, hopt, rfl⟩ := GetEmailBatch_mem capLimit _ params es hes e he
    simp only [DeleteEmail] at hq
    obtain ⟨x, _, rfl⟩ := List.mem_map.mp hq
    simp only [entryOfRow] at hemail
    by_cases hx : x.email = email
    · simp [hx] at hopt
    · simp [hx] at hemail
  · intro hno
    simp only [DeleteEmail, Prod.mk.injEq, and_true]
    conv_rhs => rw [← List.map_id t]
    apply List.map_congr_left
    intro x hx
    simp [hno x hx]

theorem DeleteEmail_spec_witness :
    WF fiveRows ∧
    (GetEmail (DeleteEmail fiveRows "b@x").1 "b@x").2 =
      .ok (some ⟨2, "b@x", some (timeUnix 0), true⟩) ∧
    (∀ e ∈ [entryOfRow ⟨1, "a@x", 0, false⟩, entryOfRow ⟨3, "c@x", 0, false⟩],
      e.Email ≠ "b@x") :=
  ⟨by decide,
   ((DeleteEmail_spec fiveRows "b@x" (by decide)).2.2.1
      ⟨2, "b@x", 0, false⟩ (by decide) rfl).2,
   (DeleteEmail_spec fiveRows "b@x" (by decide)).2.2.2.1 2 ⟨1, 2⟩ _ (by decide)⟩

/-! ## Invariants (C8) -/

/-- C8: after any sequence of `CreateEmail`, `UpdateEmail` and `DeleteEmail`
calls on the empty table, whatever their outcomes, no two rows have the same
email and no two rows the same id; and each of the three calls keeps every
stored row under its id and email. -/
theorem email_unique_invariant (ops : List Op) :
    ((run ops).map (fun r => r.email)).Nodup ∧
    ((run ops).map (fun r => r.id)).Nodup ∧
    ∀ (op : Op), ∀ r ∈ run ops,
      ∃ q ∈ run (ops ++ [op]), q.id = r.id ∧ q.email = r.email := by
  refine ⟨(WF_run ops).1, (WF_run ops).2, ?_⟩
  intro op r hr
  rw [run_snoc]
  exact step_keeps_row (run ops) op r hr

theorem email_unique_invariant_witness :
    ∃ q ∈ run ([.create "a@x", .create "a@x", .delete "a@x"] ++
        [.update ⟨7, "a@x", some (timeUnix 5), false⟩]),
      q.id = 1 ∧ q.email = "a@x" :=
  (email_unique_invariant [.create "a@x", .create "a@x", .delete "a@x"]).2.2
    (.update ⟨7, "a@x", some (timeUnix 5), false⟩) ⟨1, "a@x", 0, true⟩ (by decide)

/-! ## Batches (C1, C2) -/

/-- C1 (as amended): for every table, every page >= 1 and every count >= 0
such that the offset `(page-1)*count` fits a Go `int` and `count` does not
exceed the slice capacity the runtime grants, `GetEmailBatch` returns no error
and exactly the batch of the specification: the rows with `opt_out = false`
sorted by ascending id, without the first `(page-1)*count`, at most `count` of
the rest.  Every returned entry has `OptOut = false`, the ids ascend strictly,
and the length is at most `count`.  On the five rows a@x..e@x with count 2 the
pages 1, 2, 3 are [a@x, b@x], [c@x, d@x], [e@x]. -/
theorem GetEmailBatch_spec (capLimit : Nat) (t : Table) (page count : Int) (hwf : WF t)
    (hp : 1 ≤ page) (hpi : page < 2 ^ 63) (hc : 0 ≤ count)
    (hoff : (page - 1) * count < 2 ^ 63) (hcap : count ≤ (capLimit : Int)) :
    GetEmailBatch capLimit t ⟨page, count⟩ = .ok ((specBatch t page count).map entryOfRow) ∧
    (∀ e ∈ (specBatch t page count).map entryOfRow, e.OptOut = false) ∧
    (((specBatch t page count).map entryOfRow).map (fun e => e.Id)).Sorted (· < ·) ∧
    ((((specBatch t page count).map entryOfRow).length : Nat) : Int) ≤ count ∧
    GetEmailBatch 2 fiveRows ⟨1, 2⟩ =
      .ok [entryOfRow ⟨1, "a@x", 0, false⟩, entryOfRow ⟨2, "b@x", 0, false⟩] ∧
    GetEmailBatch 2 fiveRows ⟨2, 2⟩ =
      .ok [entryOfRow ⟨3, "c@x", 0, false⟩, entryOfRow ⟨4, "d@x", 0, false⟩] ∧
    GetEmailBatch 2 fiveRows ⟨3, 2⟩ = .ok [entryOfRow ⟨5, "e@x", 0, false⟩] := by
  refine ⟨?_, ?_, ?_, ?_, by decide, by decide, by decide⟩
  · rw [GetEmailBatch_eq]
    simp only
    rw [if_neg (by omega), selectBatch_eq_specBatch t page count hp hpi hc hoff]
  · intro e he
    obtain ⟨r, hr, rfl⟩ := List.mem_map.mp he
    exact ((mem_activeById t r).mp ((specBatch_sublist t page count).subset hr)).2
  · exact strict_ids_of_sublist t hwf _ (specBatch_sublist t page count)
  · rw [List.length_map]
    unfold specBatch
    rw [List.length_take]
    have := Nat.min_le_left count.toNat
      (((t.filter (fun r => r.opt_out == false)).insertionSort
        (fun a b => a.id ≤ b.id)).drop ((page - 1) * count).toNat).length
    omega

theorem GetEmailBatch_spec_witness :
    WF fiveRows ∧
    GetEmailBatch 10 fiveRows ⟨2, 3⟩ = .ok ((specBatch fiveRows 2 3).map entryOfRow) :=
  ⟨by decide,
   (GetEmailBatch_spec 10 fiveRows 2 3 (by decide) (by decide) (by decide) (by decide)
      (by decide) (by decide)).1⟩

/-- C1 as stated fails for large arguments.  With page `2^62 + 1` and count 2
the offset `2^62 * 2` wraps to `-2^63`, SQLite reads a negative offset as 0,
and the call returns the first two rows, where the claim's list is empty.  With
page 1 and count `2^62` the call panics in `make` and returns nothing. -/
theorem GetEmailBatch_spec_counterexample :
    GetEmailBatch goMaxSliceCap fiveRows ⟨2 ^ 62 + 1, 2⟩ =
      .ok [entryOfRow ⟨1, "a@x", 0, false⟩, entryOfRow ⟨2, "b@x", 0, false⟩] ∧
    (specBatch fiveRows (2 ^ 62 + 1) 2).map entryOfRow = [] ∧
    GetEmailBatch goMaxSliceCap fiveRows ⟨2 ^ 62 + 1, 2⟩ ≠
      .ok ((specBatch fiveRows (2 ^ 62 + 1) 2).map entryOfRow) ∧
    GetEmailBatch goMaxSliceCap fiveRows ⟨1, 2 ^ 62⟩ = .panicked := by
  refine ⟨by decide, by decide, by decide, by decide⟩

/-- C2 (as amended): for every table and every N >= 0 such that `2N` fits a Go
`int` and does not exceed the slice capacity the runtime grants, the batches
for page 1 and page 2 with count N are returned, they are disjoint, each has
strictly ascending ids, and their concatenation is the batch for page 1 with
count 2N, whose ids ascend strictly as well. -/
theorem GetEmailBatch_pages_concat (capLimit : Nat) (t : Table) (N : Int) (hwf : WF t)
    (hN : 0 ≤ N) (h2 : 2 * N < 2 ^ 63) (hcap : 2 * N ≤ (capLimit : Int)) :
    ∃ p1 p2 : List EmailEntry,
      GetEmailBatch capLimit t ⟨1, N⟩ = .ok p1 ∧
      GetEmailBatch capLimit t ⟨2, N⟩ = .ok p2 ∧
      GetEmailBatch capLimit t ⟨1, 2 * N⟩ = .ok (p1 ++ p2) ∧
      p1.Disjoint p2 ∧
      (p1.map (fun e => e.Id)).Sorted (· < ·) ∧
      (p2.map (fun e => e.Id)).Sorted (· < ·) ∧
      ((p1 ++ p2).map (fun e => e.Id)).Sorted (· < ·) := by
  have e1 := (GetEmailBatch_eq capLimit t ⟨1, N⟩).trans
    (by simp only; rw [if_neg (by omega),
      selectBatch_eq_specBatch t 1 N (by omega) (by omega) hN (by omega)])
  have e2 := (GetEmailBatch_eq capLimit t ⟨2, N⟩).trans
    (by simp only; rw [if_neg (by omega),
      selectBatch_eq_specBatch t 2 N (by omega) (by omega) hN (by omega)])
  have e3 := (GetEmailBatch_eq capLimit t ⟨1, 2 * N⟩).trans
    (by simp only; rw [if_neg (by omega),
      selectBatch_eq_specBatch t 1 (2 * N) (by omega) (by omega) (by omega) (by omega)])
  have hcat : specBatch t 1 (2 * N) = specBatch t 1 N ++ specBatch t 2 N := by
    unfold specBatch
    have hn : (2 * N).toNat = N.toNat + N.toNat := by omega
    have h0 : ((1 - 1) * (2 * N)).toNat = 0 := by simp
    have h0' : ((1 - 1) * N).toNat = 0 := by simp
    have h1 : ((2 - 1) * N).toNat = N.toNat := by simp
    rw [hn, h0, h0', h1, List.drop_zero, List.take_add]
  have hs := strict_ids_of_sublist t hwf _ (specBatch_sublist t 1 (2 * N))
  rw [hcat, List.map_append] at hs
  refine ⟨_, _, e1, e2, ?_, ?_, ?_, ?_, hs⟩
  · rw [e3, hcat, List.map_append]
  · have hnd : ((specBatch t 1 N).map entryOfRow ++ (specBatch t 2 N).map entryOfRow).Nodup :=
      List.Nodup.of_map _ hs.nodup
    exact (List.nodup_append.mp hnd).2.2
  · exact strict_ids_of_sublist t hwf _ (specBatch_sublist t 1 N)
  · exact strict_ids_of_sublist t hwf _ (specBatch_sublist t 2 N)

theorem GetEmailBatch_pages_concat_witness :
    WF fiveRows ∧
    ∃ p1 p2 : List EmailEntry,
      GetEmailBatch 4 fiveRows ⟨1, 2⟩ = .ok p1 ∧
      GetEmailBatch 4 fiveRows ⟨2, 2⟩ = .ok p2 ∧
      GetEmailBatch 4 fiveRows ⟨1, 2 * 2⟩ = .ok (p1 ++ p2) ∧
      p1.Disjoint p2 ∧
      (p1.map (fun e => e.Id)).Sorted (· < ·) ∧
      (p2.map (fun e => e.Id)).Sorted (· < ·) ∧
      ((p1 ++ p2).map (fun e => e.Id)).Sorted (· < ·) :=
  ⟨by decide,
   GetEmailBatch_pages_concat 4 fiveRows 2 (by decide) (by decide) (by decide) (by decide)⟩

/-- C2 as stated fails for large N: with `N = 2^61` the call with count `2N`
(and already the call with count `N`) panics in `make` and returns no batch. -/
theorem GetEmailBatch_pages_concat_counterexample :
    GetEmailBatch goMaxSliceCap fiveRows ⟨1, 2 * 2 ^ 61⟩ = .panicked ∧
    GetEmailBatch goMaxSliceCap fiveRows ⟨1, 2 ^ 61⟩ = .panicked ∧
    (0 : Int) ≤ 2 ^ 61 ∧ isInt64 (2 * 2 ^ 61) := by
  refine ⟨by decide, by decide, by decide, by decide⟩

end Mdb
